import Mathlib

/-!
Verification of the market_scraping repository: a shallow embedding of
`interactive_stock_vals.py` (the per-ticker scrape orchestrator) and
`download_stock_vals.py` (the date validator, token extractor, bulk download
URL construction and bulk entry point), together with theorems settling the
specification claims.

Modelling conventions:
* A pandas row is a `Row` (ticker code plus the remaining column values);
  a `DataFrame` is a list of rows, with its index modelled explicitly only
  where renumbering matters (as `List (Nat × Row)`, label paired with row).
* Python exceptions become `Except` errors; the distinct `raise` sites map to
  distinct constructors of `EodErr`, `DateErr`, `TokenErr` and `DlErr`.
* `datetime.date` values are modelled as integer day numbers (calendar order
  is a total order and `timedelta(days=n)` subtraction is integer
  subtraction), year/month/day triples are used where string formatting of a
  date matters.
* The injected page-fetch function takes the letter and the 0-based attempt
  number, so a deterministic function can describe per-attempt outcomes;
  every run also returns the trace of (letter, attempt) fetch calls made.
-/

/-- One row of a scraped table: the value of the Code column and the rest of
the columns. -/
structure Row where
  code : String
  fields : List String
deriving DecidableEq, Repr

/-- A scraped table, as delivered by one page fetch. -/
abbrev Table := List Row

/-- The errors the interactive scraper can raise: `indexError` is Python's
IndexError from `curr_ticker[0]` on an empty string, `scrapeError l n` is the
`Exception` raised by the for-else branch after exhausting `n` tries on
letter `l`, and `concatError` is the ValueError `pd.concat` raises on an
empty list of tables. -/
inductive EodErr where
  | indexError : EodErr
  | scrapeError : Char → Int → EodErr
  | concatError : EodErr
deriving DecidableEq, Repr

/-- The fixed 26-letter tuple from `get_letters_list` for the `tickers is
None` case. -/
def alphabet : List Char :=
  ['A', 'B', 'C', 'D', 'E', 'F', 'G', 'H', 'I',
   'J', 'K', 'L', 'M', 'N', 'O', 'P', 'Q', 'R',
   'S', 'T', 'U', 'V', 'W', 'X', 'Y', 'Z']

/-- Insert a character into a strictly sorted list, keeping it strictly
sorted; this is how a Python `set` followed by `sorted` is realised. -/
def insertSorted (c : Char) : List Char → List Char
  | [] => [c]
  | x :: xs =>
    if c < x then c :: x :: xs
    else if c = x then x :: xs
    else x :: insertSorted c xs

/-- `sorted(set(cs))`: fold every character into a strictly sorted
duplicate-free list. -/
def sortedDedup (cs : List Char) : List Char :=
  cs.foldl (fun acc c => insertSorted c acc) []

/-- `curr_ticker[0]` for each ticker: the first character of every string,
failing with IndexError on an empty string (Python's unguarded `[0]`). -/
def first_letters : List String → Except EodErr (List Char)
  | [] => .ok []
  | t :: ts =>
    match t.data with
    | [] => .error .indexError
    | c :: _ => (first_letters ts).map (fun cs => c :: cs)

/-- `get_letters_list(tickers)` from interactive_stock_vals.py: `None` gives
the fixed alphabet, otherwise the sorted set of first characters of the
tickers. -/
def get_letters_list : Option (List String) → Except EodErr (List Char)
  | none => .ok alphabet
  | some ts => (first_letters ts).map sortedDedup

/-- The inner `for i in range(n_tries)` loop for one letter, over the list of
remaining attempt indices: try the fetch, on success break with the table, on
exception continue with the next attempt.  Returns the table (if any attempt
succeeded) and the list of attempt indices actually tried. -/
def tryAttempts (fetch : Char → Nat → Except Unit Table) (l : Char) :
    List Nat → Option Table × List Nat
  | [] => (none, [])
  | i :: rest =>
    match fetch l i with
    | .ok t => (some t, [i])
    | .error _ =>
      let r := tryAttempts fetch l rest
      (r.1, i :: r.2)

/-- The outer `for let in letters` loop of `get_vals_from_eoddata`: fetch
each letter with up to `n.toNat` attempts (`range(n_tries)` of a possibly
negative count is empty), collecting the successful tables in letter order;
the first letter that exhausts its attempts raises
`scrapeError letter n_tries` immediately.  Also returns the trace of
(letter, attempt) fetch calls made. -/
def scrapeLetters (fetch : Char → Nat → Except Unit Table) (n : Int) :
    List Char → Except EodErr (List Table) × List (Char × Nat)
  | [] => (.ok [], [])
  | l :: ls =>
    let r := tryAttempts fetch l (List.range n.toNat)
    let trL := r.2.map (fun i => (l, i))
    match r.1 with
    | some t =>
      let rest := scrapeLetters fetch n ls
      (rest.1.map (fun tabs => t :: tabs), trL ++ rest.2)
    | none => (.error (.scrapeError l n), trL)

/-- The tail of `get_vals_from_eoddata` after the per-letter loop:
`pd.concat` of the per-letter tables (a ValueError on an empty list), the
conditional `isin(tickers)` row filter, `reset_index(drop=True)` (the final
index is the contiguous relabelling `enum`), and the warning computation for
requested tickers absent from the result. -/
def combine_and_filter (tickers : Option (List String)) (tables : List Table) :
    Except EodErr (List (Nat × Row) × List String) :=
  if tables.isEmpty then .error .concatError
  else
    let combined : Table := tables.flatten
    let filtered : Table :=
      match tickers with
      | some ts => combined.filter (fun r => ts.contains r.code)
      | none => combined
    let warn :=
      (tickers.getD []).filter
        (fun t => !(filtered.map Row.code).contains t)
    .ok (filtered.enum, warn)

/-- `get_vals_from_eoddata` once the partition is known: run the per-letter
retry loop, then (if it did not raise) combine, filter and reconcile. -/
def get_vals_core (tickers : Option (List String)) (nTries : Int)
    (fetch : Char → Nat → Except Unit Table) (letters : List Char) :
    Except EodErr (List (Nat × Row) × List String) × List (Char × Nat) :=
  ((scrapeLetters fetch nTries letters).1.bind (combine_and_filter tickers),
   (scrapeLetters fetch nTries letters).2)

/-- `get_vals_from_eoddata(tickers, n_tries, read_eod_fn)`: the partition
step, then the retry loop and the combination/filter/reconciliation steps.
Returns the (relabelled table, warning list) or the error, paired with the
trace of (letter, attempt) fetch calls made. -/
def get_vals_from_eoddata (tickers : Option (List String)) (nTries : Int)
    (fetch : Char → Nat → Except Unit Table) :
    Except EodErr (List (Nat × Row) × List String) × List (Char × Nat) :=
  match get_letters_list tickers with
  | .error e => (.error e, [])
  | .ok letters => get_vals_core tickers nTries fetch letters

/-! ## download_stock_vals.py -/

/-- The InvalidRange error of the date validator (each of the three
`raise ValueError` sites of `check_valid_dates`). -/
inductive DateErr where
  | invalidRange : DateErr
deriving DecidableEq, Repr

/-- `check_valid_dates(start_date, end_date, n_days_history)`, with dates as
integer day numbers and `today` passed explicitly (the code reads the current
date).  `earliest_day = today - n_days_history`; the three guards raise in
order, otherwise the function returns with no effect. -/
def check_valid_dates (today start_date end_date n_days_history : Int) :
    Except DateErr Unit :=
  let earliest_day := today - n_days_history
  if start_date < earliest_day then .error .invalidRange
  else if today < start_date then .error .invalidRange
  else if end_date < start_date then .error .invalidRange
  else .ok ()

/-- One hyperlink element of the downloads page, in document order: its href
attribute if it has one. -/
structure ALink where
  href : Option String
deriving DecidableEq, Repr

/-- The errors of the token-extraction loop: `tokenNotFound` is the bare
`raise Exception` fired when `k` is still falsy after the loop, and
`attrError` is the AttributeError from calling `.group(1)` on the `None`
that `re.search` returns when the matched link has no `k=` substring. -/
inductive TokenErr where
  | tokenNotFound : TokenErr
  | attrError : TokenErr
deriving DecidableEq, Repr

/-- `p` is a character-literal prefix of `s`. -/
def charsLead : List Char → List Char → Bool
  | [], _ => true
  | _ :: _, [] => false
  | p :: ps, c :: cs => p = c && charsLead ps cs

/-- The test of the Python regex `re.match(dlPattern, url_string)` where
`dlPattern` is the 23-character string slash d a t a slash f i l e d o w n l
o a d dot a s p x: anchored at the start of the string, the 18 characters of
the path stem literally, then any single character (the unescaped regex dot),
then the four characters a s p x literally. -/
def matchesDownloadPattern (s : String) : Bool :=
  let cs := s.data
  charsLead "/data/filedownload".data cs &&
  (match cs.drop 18 with
   | [] => false
   | _ :: rest => charsLead "aspx".data rest)

/-- The Python `re.search` for the pattern k equals, capture of not-ampersand
repeated: scan left to right for the first occurrence of the two characters
k equals, and return the following characters up to (excluding) the first
ampersand; `none` when no occurrence exists. -/
def searchK : List Char → Option String
  | [] => none
  | 'k' :: '=' :: rest => some (String.mk (rest.takeWhile (fun c => c ≠ '&')))
  | _ :: rest => searchK rest

/-- The scan of `url_list`: step through the hyperlink elements in document
order, skip any without an href attribute, and stop at the first one whose
href matches the download pattern. -/
def findMatchingHref : List ALink → Option String
  | [] => none
  | a :: rest =>
    match a.href with
    | none => findMatchingHref rest
    | some s => if matchesDownloadPattern s then some s else findMatchingHref rest

/-- Reading the k value out of one matching href: `re.search` returning
`None` makes `.group(1)` raise AttributeError; an empty captured value
leaves `k` falsy so the post-loop check raises the bare Exception. -/
def token_of_href (s : String) : Except TokenErr String :=
  match searchK s.data with
  | none => .error .attrError
  | some k => if k = "" then .error .tokenNotFound else .ok k

/-- The whole token-extraction portion: find the first matching link in
document order and read its k value; with no matching link, `k` keeps its
initial falsy value and the post-loop check raises. -/
def extract_token (links : List ALink) : Except TokenErr String :=
  match findMatchingHref links with
  | none => .error .tokenNotFound
  | some s => token_of_href s

/-- Zero-padded two-digit rendering of a month or day number, as produced by
the strftime directives percent-m and percent-d. -/
def pad2 (n : Nat) : String :=
  if n < 10 then "0" ++ toString n else toString n

/-- Zero-padded four-digit rendering of a year, as produced by the strftime
directive percent-Y for the years this service accepts. -/
def pad4 (n : Nat) : String :=
  if n < 10 then "000" ++ toString n
  else if n < 100 then "00" ++ toString n
  else if n < 1000 then "0" ++ toString n
  else toString n

/-- A calendar date as a year/month/day triple, used where
`strftime` output matters. -/
structure Date where
  year : Nat
  month : Nat
  day : Nat
deriving DecidableEq, Repr

/-- `date.strftime` with format percent-Y percent-m percent-d: the fixed
8-digit YYYYMMDD encoding. -/
def strftimeYmd (d : Date) : String :=
  pad4 d.year ++ pad2 d.month ++ pad2 d.day

/-- The `url_template.format(...)` call of `download_from_eoddata`: the base
download endpoint with query parameters e (market), sd and ed (the two dates
in YYYYMMDD), the constant d=4, k (the extracted token, verbatim), and the
constant flags o=d, ea=1, p=0, in that order. -/
def construct_download_url (market : String) (start_date end_date : Date)
    (k : String) : String :=
  "http://www.eoddata.com/data/filedownload.aspx" ++
    "?e=" ++ market ++
    "&sd=" ++ strftimeYmd start_date ++
    "&ed=" ++ strftimeYmd end_date ++
    "&d=" ++ "4" ++
    "&k=" ++ k ++
    "&o=" ++ "d" ++
    "&ea=" ++ "1" ++
    "&p=" ++ "0"

/-- The errors visible at the bulk entry point: `authError` stands for any
exception raised inside `construct_driver_fcn` while the session is being
established, `downloadError` for a failure of `download_data_fcn`, and
`nameError` for the UnboundLocalError (a NameError subclass) raised when the
`finally` block evaluates `driver.close()` with the local `driver` never
having been bound. -/
inductive DlErr where
  | authError : DlErr
  | downloadError : DlErr
  | nameError : DlErr
deriving DecidableEq, Repr

/-- `download_stock_vals`, abstracted over the outcomes of the two looked-up
service functions.  Python semantics of the try/except-reraise/finally block
with `driver = construct_driver_fcn(...)` as the first statement of the try:
if the constructor raises, the local `driver` is unbound, so the `finally`
block's `driver.close()` raises UnboundLocalError, which supersedes the
in-flight exception; if the constructor returns, `driver.close()` runs on
every exit path.  The boolean records whether `close` was actually called on
a live driver. -/
def download_stock_vals (construct : Except DlErr Unit)
    (download : Except DlErr Unit) : Except DlErr Unit × Bool :=
  match construct with
  | .error _ => (.error .nameError, false)
  | .ok _ =>
    match download with
    | .error e => (.error e, true)
    | .ok _ => (.ok (), true)

/-! ## Helper lemmas -/

theorem mem_insertSorted (c a : Char) :
    ∀ l : List Char, a ∈ insertSorted c l ↔ a = c ∨ a ∈ l
  | [] => by simp [insertSorted]
  | x :: xs => by
    simp only [insertSorted]
    split_ifs with h1 h2
    · simp [List.mem_cons]
    · subst h2
      simp [List.mem_cons]
    · simp only [List.mem_cons, mem_insertSorted c a xs]
      tauto

theorem sorted_insertSorted (c : Char) :
    ∀ l : List Char, l.Sorted (· < ·) → (insertSorted c l).Sorted (· < ·)
  | [], _ => by simp [insertSorted]
  | x :: xs, h => by
    rw [List.sorted_cons] at h
    obtain ⟨hx, hxs⟩ := h
    simp only [insertSorted]
    split_ifs with h1 h2
    · rw [List.sorted_cons]
      refine ⟨fun b hb => ?_, List.sorted_cons.mpr ⟨hx, hxs⟩⟩
      rcases List.mem_cons.mp hb with rfl | hb
      · exact h1
      · exact h1.trans (hx b hb)
    · exact List.sorted_cons.mpr ⟨hx, hxs⟩
    · have hxc : x < c :=
        lt_of_le_of_ne (le_of_not_lt h1) (fun he => h2 he.symm)
      rw [List.sorted_cons]
      refine ⟨fun b hb => ?_, sorted_insertSorted c xs hxs⟩
      rcases (mem_insertSorted c b xs).mp hb with rfl | hb
      · exact hxc
      · exact hx b hb

theorem sortedDedup_aux_sorted :
    ∀ (cs acc : List Char), acc.Sorted (· < ·) →
      (cs.foldl (fun a c => insertSorted c a) acc).Sorted (· < ·)
  | [], _, h => h
  | c :: cs, acc, h =>
    sortedDedup_aux_sorted cs (insertSorted c acc) (sorted_insertSorted c acc h)

theorem sortedDedup_aux_mem :
    ∀ (cs acc : List Char) (a : Char),
      a ∈ cs.foldl (fun a c => insertSorted c a) acc ↔ a ∈ acc ∨ a ∈ cs
  | [], acc, a => by simp
  | c :: cs, acc, a => by
    simp only [List.foldl_cons, sortedDedup_aux_mem cs (insertSorted c acc) a,
      mem_insertSorted, List.mem_cons]
    tauto

theorem sortedDedup_sorted (cs : List Char) : (sortedDedup cs).Sorted (· < ·) :=
  sortedDedup_aux_sorted cs [] (List.sorted_nil)

theorem mem_sortedDedup (cs : List Char) (a : Char) :
    a ∈ sortedDedup cs ↔ a ∈ cs := by
  simp [sortedDedup, sortedDedup_aux_mem]

theorem sortedDedup_nodup (cs : List Char) : (sortedDedup cs).Nodup :=
  (sortedDedup_sorted cs).imp (fun h => ne_of_lt h)

theorem first_letters_ok :
    ∀ ts : List String, (∀ t ∈ ts, t.data ≠ []) →
      ∃ cs, first_letters ts = Except.ok cs ∧
        (∀ c, c ∈ cs ↔ ∃ t ∈ ts, t.data.head? = some c) ∧
        (ts = [] → cs = []) ∧ (ts ≠ [] → cs ≠ [])
  | [], _ => ⟨[], rfl, by simp, fun _ => rfl, fun h => absurd rfl h⟩
  | t :: ts, h => by
    obtain ⟨cs, hok, hmem, -, -⟩ :=
      first_letters_ok ts (fun u hu => h u (List.mem_cons_of_mem t hu))
    have ht : t.data ≠ [] := h t (List.mem_cons_self t ts)
    match hd : t.data with
    | [] => exact absurd hd ht
    | c :: rest =>
      refine ⟨c :: cs, ?_, ?_, by simp, fun _ => by simp⟩
      · simp only [first_letters, hd, hok]
        rfl
      · intro a
        simp only [List.mem_cons, hmem]
        constructor
        · rintro (rfl | ⟨u, hu, hhead⟩)
          · exact ⟨t, Or.inl rfl, by simp [hd]⟩
          · exact ⟨u, Or.inr hu, hhead⟩
        · rintro ⟨u, rfl | hu, hhead⟩
          · left
            rw [hd] at hhead
            simpa using hhead.symm
          · exact Or.inr ⟨u, hu, hhead⟩

theorem first_letters_err :
    ∀ ts : List String, "" ∈ ts → first_letters ts = Except.error EodErr.indexError
  | t :: ts, hmem => by
    rcases List.mem_cons.mp hmem with rfl | hmem
    · rfl
    · simp only [first_letters]
      match hd : t.data with
      | [] => rfl
      | c :: rest =>
        rw [first_letters_err ts hmem]
        rfl

theorem tryAttempts_allFail (fetch : Char → Nat → Except Unit Table) (l : Char)
    (h : ∀ i, fetch l i = Except.error ()) :
    ∀ is : List Nat, tryAttempts fetch l is = (none, is)
  | [] => rfl
  | i :: rest => by
    simp only [tryAttempts, h i, tryAttempts_allFail fetch l h rest]

theorem tryAttempts_firstOk (fetch : Char → Nat → Except Unit Table) (l : Char)
    (t : Table) (h : fetch l 0 = Except.ok t) (n : Nat) (hn : 0 < n) :
    tryAttempts fetch l (List.range n) = (some t, [0]) := by
  obtain ⟨m, rfl⟩ := Nat.exists_eq_add_of_lt hn
  rw [Nat.zero_add, List.range_succ_eq_map]
  simp only [tryAttempts, h]

theorem scrapeLetters_fatalX (fetch : Char → Nat → Except Unit Table)
    (hfail : ∀ i, fetch 'X' i = Except.error ())
    (hok : ∀ c, c ≠ 'X' → ∃ t, fetch c 0 = Except.ok t) :
    ∀ L : List Char, 'X' ∈ L →
      scrapeLetters fetch 3 L =
        (Except.error (EodErr.scrapeError 'X' 3),
         (L.takeWhile (fun c => c != 'X')).map (fun c => (c, 0)) ++
           [('X', 0), ('X', 1), ('X', 2)])
  | l :: ls, hmem => by
    by_cases hl : l = 'X'
    · subst hl
      have hr : tryAttempts fetch 'X' (List.range (Int.toNat 3)) =
          (none, [0, 1, 2]) := by
        rw [tryAttempts_allFail fetch 'X' hfail]
        rfl
      simp only [scrapeLetters, hr, List.takeWhile]
      rfl
    · obtain ⟨t, ht⟩ := hok l hl
      have hX : 'X' ∈ ls := by
        rcases List.mem_cons.mp hmem with rfl | hX
        · exact absurd rfl hl
        · exact hX
      have hr : tryAttempts fetch l (List.range (Int.toNat 3)) =
          (some t, [0]) :=
        tryAttempts_firstOk fetch l t ht 3 (by decide)
      have hrec := scrapeLetters_fatalX fetch hfail hok ls hX
      simp only [scrapeLetters, hr, hrec, List.takeWhile]
      have hbne : (l != 'X') = true := bne_iff_ne.mpr hl
      simp only [hbne, if_true, List.map_cons, List.cons_append]
      rfl

theorem scrapeLetters_allOk (fetch : Char → Nat → Except Unit Table)
    (T : Char → Table) (h : ∀ c i, fetch c i = Except.ok (T c))
    (n : Int) (hn : 1 ≤ n) :
    ∀ L : List Char,
      scrapeLetters fetch n L = (Except.ok (L.map T), L.map (fun c => (c, 0)))
  | [] => rfl
  | l :: ls => by
    have hr : tryAttempts fetch l (List.range n.toNat) = (some (T l), [0]) :=
      tryAttempts_firstOk fetch l (T l) (h l 0) n.toNat (by omega)
    simp only [scrapeLetters, hr, scrapeLetters_allOk fetch T h n hn ls]
    rfl

theorem scrapeLetters_noAttempts (fetch : Char → Nat → Except Unit Table)
    (n : Int) (hn : n ≤ 0) (l : Char) (ls : List Char) :
    scrapeLetters fetch n (l :: ls) =
      (Except.error (EodErr.scrapeError l n), []) := by
  have h0 : n.toNat = 0 := Int.toNat_of_nonpos hn
  simp only [scrapeLetters, h0, List.range_zero, tryAttempts]
  rfl

theorem get_letters_list_some_ok (ts : List String) (cs : List Char)
    (hcs : first_letters ts = Except.ok cs) :
    get_letters_list (some ts) = Except.ok (sortedDedup cs) := by
  simp only [get_letters_list, hcs]
  rfl

theorem get_vals_success (ts : List String)
    (fetch : Char → Nat → Except Unit Table) (T : Char → Table) (n : Int)
    (hf : ∀ c i, fetch c i = Except.ok (T c)) (hn : 1 ≤ n)
    (hts : ts ≠ []) (hall : ∀ t ∈ ts, t.data ≠ []) :
    ∃ L : List Char,
      get_letters_list (some ts) = Except.ok L ∧ L ≠ [] ∧ L.Nodup ∧
      L.Sorted (· < ·) ∧
      get_vals_from_eoddata (some ts) n fetch =
        (Except.ok
          (((L.map T).flatten.filter (fun r => ts.contains r.code)).enum,
           ts.filter (fun t =>
             !(((L.map T).flatten.filter
                 (fun r => ts.contains r.code)).map Row.code).contains t)),
         L.map (fun c => (c, 0))) := by
  obtain ⟨cs, hcs, hmem, -, hne⟩ := first_letters_ok ts hall
  have hL : get_letters_list (some ts) = Except.ok (sortedDedup cs) :=
    get_letters_list_some_ok ts cs hcs
  have hLne : sortedDedup cs ≠ [] := by
    obtain ⟨c, cs', rfl⟩ := List.exists_cons_of_ne_nil (hne hts)
    exact List.ne_nil_of_mem ((mem_sortedDedup _ c).mpr (List.mem_cons_self c cs'))
  refine ⟨sortedDedup cs, hL, hLne, sortedDedup_nodup cs,
    sortedDedup_sorted cs, ?_⟩
  obtain ⟨l0, L', hcons⟩ := List.exists_cons_of_ne_nil hLne
  have hscr := scrapeLetters_allOk fetch T hf n hn (sortedDedup cs)
  have hcore : get_vals_from_eoddata (some ts) n fetch =
      get_vals_core (some ts) n fetch (sortedDedup cs) := by
    rw [get_vals_from_eoddata, hL]
  rw [hcore, get_vals_core, hscr, hcons]
  rfl

/-! ## Claim theorems -/

/-- Claim C4: for every (start, end, lookback) and current date, the
validator fails with InvalidRange exactly when start is before
today - lookback, or start is after today, or end is before start; at the
boundary start = today - lookback (with the other conditions holding) it
returns with no effect. -/
theorem check_valid_dates_exact (today s e lb : Int) :
    (check_valid_dates today s e lb = Except.error DateErr.invalidRange ↔
      (s < today - lb ∨ today < s ∨ e < s)) ∧
    (s = today - lb → s ≤ today → s ≤ e →
      check_valid_dates today s e lb = Except.ok ()) := by
  constructor
  · unfold check_valid_dates
    split_ifs with h1 h2 h3 <;> simp <;> omega
  · intro h1 h2 h3
    have g1 : ¬(s < today - lb) := by omega
    have g2 : ¬(today < s) := by omega
    have g3 : ¬(e < s) := by omega
    simp [check_valid_dates, g1, g2, g3]

/-- Witness for C4: with today = 100 and a 30-day lookback, a start at the
boundary day 70 passes while day 69 fails. -/
theorem check_valid_dates_exact_witness :
    check_valid_dates 100 70 80 30 = Except.ok () ∧
    check_valid_dates 100 69 80 30 = Except.error DateErr.invalidRange :=
  ⟨(check_valid_dates_exact 100 70 80 30).2 (by decide) (by decide) (by decide),
   (check_valid_dates_exact 100 69 80 30).1.mpr (Or.inl (by decide))⟩

/-- Claim C5 (code bug): when the session constructor raises, the `finally`
block evaluates `driver.close()` with `driver` unbound, so the caller sees
an UnboundLocalError rather than the establishment failure, and no close of
a live session happens; the other exit paths do close the session. -/
theorem download_stock_vals_masks_auth_failure :
    download_stock_vals (Except.error DlErr.authError) (Except.ok ()) =
      (Except.error DlErr.nameError, false) ∧
    (download_stock_vals (Except.error DlErr.authError) (Except.ok ())).1 ≠
      Except.error DlErr.authError ∧
    download_stock_vals (Except.ok ()) (Except.ok ()) =
      (Except.ok (), true) ∧
    download_stock_vals (Except.ok ()) (Except.error DlErr.downloadError) =
      (Except.error DlErr.downloadError, true) := by
  refine ⟨rfl, ?_, rfl, rfl⟩
  intro h
  simp [download_stock_vals] at h

/-- Claim C9: with a non-positive attempt budget and a non-empty partition,
the orchestrator raises the retry-exhaustion error for the first partition
letter with an empty call trace: the fetch function is never called. -/
theorem get_vals_nonpositive_attempts (tickers : Option (List String))
    (fetch : Char → Nat → Except Unit Table) (n : Int) (l : Char)
    (ls : List Char) (hn : n ≤ 0)
    (hL : get_letters_list tickers = Except.ok (l :: ls)) :
    get_vals_from_eoddata tickers n fetch =
      (Except.error (EodErr.scrapeError l n), []) := by
  have hcore : get_vals_from_eoddata tickers n fetch =
      get_vals_core tickers n fetch (l :: ls) := by
    rw [get_vals_from_eoddata, hL]
  rw [hcore, get_vals_core, scrapeLetters_noAttempts fetch n hn l ls]
  rfl

/-- Witness for C9: requesting AAPL with a zero attempt budget and a fetch
function that would always succeed still fails for letter A with no fetch
calls made. -/
theorem get_vals_nonpositive_attempts_witness :
    get_vals_from_eoddata (some ["AAPL"]) 0 (fun _ _ => Except.ok []) =
      (Except.error (EodErr.scrapeError 'A' 0), []) :=
  get_vals_nonpositive_attempts (some ["AAPL"]) (fun _ _ => Except.ok [])
    0 'A' [] (by decide) rfl

/-- Claim C10: a requested set containing the empty string makes the call
fail with the indexing error from the unguarded first-character read, before
any page fetch (the call trace is empty), rather than with a ScrapeError or
a normal result. -/
theorem get_vals_empty_string_ticker (ts : List String) (n : Int)
    (fetch : Char → Nat → Except Unit Table) (h : "" ∈ ts) :
    get_vals_from_eoddata (some ts) n fetch =
      (Except.error EodErr.indexError, []) := by
  have hfl : first_letters ts = Except.error EodErr.indexError :=
    first_letters_err ts h
  have hgl : get_letters_list (some ts) = Except.error EodErr.indexError := by
    simp only [get_letters_list, hfl]
    rfl
  rw [get_vals_from_eoddata, hgl]

/-- Witness for C10: the request list containing AAPL and the empty string
fails with the indexing error and an empty call trace. -/
theorem get_vals_empty_string_ticker_witness :
    get_vals_from_eoddata (some ["AAPL", ""]) 5 (fun _ _ => Except.ok []) =
      (Except.error EodErr.indexError, []) :=
  get_vals_empty_string_ticker ["AAPL", ""] 5 (fun _ _ => Except.ok [])
    (by decide)

/-- Claim C8: the download URL substitutes the market, the two dates as
fixed 8-digit YYYYMMDD strings, the constant d=4, the token verbatim and the
fixed flags o=d, ea=1, p=0; for NASDAQ, 2020-01-01 to 2020-01-02 and token
abc123, the dates encode as 20200101 and 20200102 and abc123 is embedded
unchanged. -/
theorem construct_download_url_roundtrip :
    construct_download_url "NASDAQ" ⟨2020, 1, 1⟩ ⟨2020, 1, 2⟩ "abc123" =
      "http://www.eoddata.com/data/filedownload.aspx?e=NASDAQ&sd=20200101&ed=20200102&d=4&k=abc123&o=d&ea=1&p=0" ∧
    strftimeYmd ⟨2020, 1, 1⟩ = "20200101" ∧
    strftimeYmd ⟨2020, 1, 2⟩ = "20200102" ∧
    (strftimeYmd ⟨2020, 1, 1⟩).length = 8 ∧
    (strftimeYmd ⟨2020, 1, 2⟩).length = 8 ∧
    ∀ (m k : String) (d1 d2 : Date), ∃ before after : String,
      construct_download_url m d1 d2 k = before ++ k ++ after ∧
      before = "http://www.eoddata.com/data/filedownload.aspx" ++ "?e=" ++ m ++
        "&sd=" ++ strftimeYmd d1 ++ "&ed=" ++ strftimeYmd d2 ++
        "&d=" ++ "4" ++ "&k=" ∧
      after = "&o=" ++ "d" ++ "&ea=" ++ "1" ++ "&p=" ++ "0" := by
  refine ⟨rfl, rfl, rfl, rfl, rfl, fun m k d1 d2 => ⟨_, _, ?_, rfl, rfl⟩⟩
  simp [construct_download_url, String.append_assoc]

/-- Counterexample for C3: an empty (but provided) ticker list does not give
the 26-letter alphabet; the derived partition is empty. -/
theorem get_letters_list_empty_counterexample :
    get_letters_list (some []) = Except.ok [] ∧
    get_letters_list (some []) ≠ Except.ok alphabet := by
  refine ⟨rfl, fun h => ?_⟩
  rw [show get_letters_list (some []) = Except.ok ([] : List Char) from rfl]
    at h
  have h2 := Except.ok.inj h
  simp [alphabet] at h2

/-- Claim C3 as amended: an unset (None) ticker set gives the 26 letters in
alphabetical order; a provided ticker set (all tickers non-empty) gives the
strictly sorted duplicate-free list of exactly the first characters of the
requested tickers, so an empty provided set gives the empty partition, and
for AAPL and GOOGL the partition is exactly A, G. -/
theorem get_letters_list_amended :
    get_letters_list none = Except.ok alphabet ∧
    alphabet.Sorted (· < ·) ∧
    get_letters_list (some ["AAPL", "GOOGL"]) = Except.ok ['A', 'G'] ∧
    get_letters_list (some []) = Except.ok [] ∧
    (∀ (ts : List String) (L : List Char), (∀ t ∈ ts, t.data ≠ []) →
      get_letters_list (some ts) = Except.ok L →
      L.Sorted (· < ·) ∧ L.Nodup ∧
      (∀ c, c ∈ L ↔ ∃ t ∈ ts, t.data.head? = some c)) := by
  refine ⟨rfl, by decide, rfl, rfl, ?_⟩
  intro ts L hall hL
  obtain ⟨cs, hcs, hmem, -, -⟩ := first_letters_ok ts hall
  rw [get_letters_list_some_ok ts cs hcs] at hL
  obtain rfl : sortedDedup cs = L := Except.ok.inj hL
  exact ⟨sortedDedup_sorted cs, sortedDedup_nodup cs,
    fun c => (mem_sortedDedup cs c).trans (hmem c)⟩

/-- Witness for C3 (amended): for the request BA, AC, BD the partition is
the sorted duplicate-free pair A, B with the first letters of exactly the
requested tickers. -/
theorem get_letters_list_amended_witness :
    (['A', 'B'] : List Char).Sorted (· < ·) ∧
    (['A', 'B'] : List Char).Nodup ∧
    ('B' ∈ (['A', 'B'] : List Char) ↔
      ∃ t ∈ (["BA", "AC", "BD"] : List String), t.data.head? = some 'B') := by
  obtain ⟨h1, h2, h3⟩ :=
    get_letters_list_amended.2.2.2.2 ["BA", "AC", "BD"] ['A', 'B']
      (by decide) rfl
  exact ⟨h1, h2, h3 'B'⟩

theorem extract_token_none (links : List ALink)
    (h : findMatchingHref links = none) :
    extract_token links = Except.error TokenErr.tokenNotFound := by
  rw [extract_token, h]

theorem extract_token_some (links : List ALink) (s : String)
    (h : findMatchingHref links = some s) :
    extract_token links = token_of_href s := by
  rw [extract_token, h]

/-- Counterexample for C2: a page whose first (and only) matching link
carries an empty k value fails with the same TokenNotFound error even though
a matching link does exist, so TokenNotFound does not characterise the
absence of a matching link. -/
theorem extract_token_counterexample :
    extract_token [⟨some "/data/filedownload.aspx?e=I&k=&o=d"⟩] =
      Except.error TokenErr.tokenNotFound ∧
    findMatchingHref [⟨some "/data/filedownload.aspx?e=I&k=&o=d"⟩] =
      some "/data/filedownload.aspx?e=I&k=&o=d" :=
  ⟨rfl, rfl⟩

/-- Claim C2 as amended: extraction scans the hyperlinks in document order
and takes the first one matching the download-endpoint pattern; a returned
token is exactly that link's k value (abc123 in the example) and is
non-empty; TokenNotFound is raised if and only if either no matching link
exists anywhere on the page or the first matching link's k value is empty
(a matching link with no k parameter at all instead fails with the
AttributeError). -/
theorem extract_token_amended :
    (∀ links : List ALink,
      (extract_token links = Except.error TokenErr.tokenNotFound ↔
        (findMatchingHref links = none ∨
          ∃ s, findMatchingHref links = some s ∧ searchK s.data = some "")) ∧
      (∀ t, extract_token links = Except.ok t →
        ∃ s, findMatchingHref links = some s ∧
          searchK s.data = some t ∧ t ≠ "")) ∧
    extract_token
        [⟨none⟩, ⟨some "/about.aspx"⟩,
         ⟨some "/data/filedownload.aspx?e=INDEX&sd=20180606&ed=20180606&d=4&k=abc123&o=d&ea=1&p=0"⟩] =
      Except.ok "abc123" := by
  refine ⟨fun links => ⟨?_, ?_⟩, rfl⟩
  · constructor
    · intro h
      cases hf : findMatchingHref links with
      | none => exact Or.inl rfl
      | some s =>
        rw [extract_token_some links s hf, token_of_href] at h
        right
        refine ⟨s, rfl, ?_⟩
        cases hk : searchK s.data with
        | none => rw [hk] at h; exact absurd h (by simp)
        | some k =>
          rw [hk] at h
          by_cases hk0 : k = ""
          · rw [hk0]
          · simp [hk0] at h
    · intro h
      rcases h with hf | ⟨s, hf, hk⟩
      · exact extract_token_none links hf
      · rw [extract_token_some links s hf, token_of_href, hk]
        rfl
  · intro t ht
    cases hf : findMatchingHref links with
    | none =>
      rw [extract_token_none links hf] at ht
      exact absurd ht (by simp)
    | some s =>
      rw [extract_token_some links s hf, token_of_href] at ht
      refine ⟨s, rfl, ?_⟩
      cases hk : searchK s.data with
      | none => rw [hk] at ht; exact absurd ht (by simp)
      | some k =>
        rw [hk] at ht
        by_cases hk0 : k = ""
        · simp [hk0] at ht
        · simp [hk0] at ht
          obtain rfl : k = t := ht
          exact ⟨rfl, hk0⟩

/-- Witness for C2 (amended): a page with no hyperlinks at all fails with
TokenNotFound, via the amended characterisation. -/
theorem extract_token_amended_witness :
    extract_token [⟨some "/holidays.aspx"⟩] =
      Except.error TokenErr.tokenNotFound :=
  ((extract_token_amended.1 [⟨some "/holidays.aspx"⟩]).1).mpr (Or.inl rfl)

/-- The fetch function of the C1 scenario: deterministic failure for letter
X on every attempt, immediate success for every other letter. -/
def fetchFatalX : Char → Nat → Except Unit Table := fun c _ =>
  if c = 'X' then .error () else .ok [⟨String.mk [c], []⟩]

/-- Claim C1: with max_attempts = 3, a fetch function failing always for X
and succeeding otherwise, and a request containing an X-prefixed ticker, the
call fails with the ScrapeError naming X and 3; the call trace is one
first-attempt call per partition letter before X followed by the three
attempts 0, 1, 2 for X, so X is attempted exactly 3 times and every other
letter at most once. -/
theorem get_vals_fatal_letter_retries
    (fetch : Char → Nat → Except Unit Table) (ts : List String) (t0 : String)
    (hmem : t0 ∈ ts) (hhead : t0.data.head? = some 'X')
    (hall : ∀ t ∈ ts, t.data ≠ [])
    (hfail : ∀ i, fetch 'X' i = Except.error ())
    (hok : ∀ c i, c ≠ 'X' → ∃ tb, fetch c i = Except.ok tb) :
    ∃ L : List Char,
      get_letters_list (some ts) = Except.ok L ∧
      get_vals_from_eoddata (some ts) 3 fetch =
        (Except.error (EodErr.scrapeError 'X' 3),
         (L.takeWhile (fun c => c != 'X')).map (fun c => (c, 0)) ++
           [('X', 0), ('X', 1), ('X', 2)]) ∧
      ((get_vals_from_eoddata (some ts) 3 fetch).2.map Prod.fst).count 'X' = 3 ∧
      (∀ c, c ≠ 'X' →
        ((get_vals_from_eoddata (some ts) 3 fetch).2.map Prod.fst).count c ≤ 1) := by
  obtain ⟨cs, hcs, hmemcs, -, -⟩ := first_letters_ok ts hall
  have hL := get_letters_list_some_ok ts cs hcs
  have hXL : 'X' ∈ sortedDedup cs :=
    (mem_sortedDedup cs 'X').mpr ((hmemcs 'X').mpr ⟨t0, hmem, hhead⟩)
  have hok0 : ∀ c, c ≠ 'X' → ∃ tb, fetch c 0 = Except.ok tb :=
    fun c h => hok c 0 h
  have hscr := scrapeLetters_fatalX fetch hfail hok0 (sortedDedup cs) hXL
  have hcore : get_vals_from_eoddata (some ts) 3 fetch =
      get_vals_core (some ts) 3 fetch (sortedDedup cs) := by
    rw [get_vals_from_eoddata, hL]
  have hmain : get_vals_from_eoddata (some ts) 3 fetch =
      (Except.error (EodErr.scrapeError 'X' 3),
       ((sortedDedup cs).takeWhile (fun c => c != 'X')).map (fun c => (c, 0)) ++
         [('X', 0), ('X', 1), ('X', 2)]) := by
    rw [hcore, get_vals_core, hscr]
    rfl
  have hfst : (get_vals_from_eoddata (some ts) 3 fetch).2.map Prod.fst =
      (sortedDedup cs).takeWhile (fun c => c != 'X') ++ ['X', 'X', 'X'] := by
    rw [hmain]
    simp only [List.map_append, List.map_map]
    rw [show (Prod.fst ∘ fun c : Char => (c, (0 : Nat))) = id from rfl,
      List.map_id]
    rfl
  have htwX : ((sortedDedup cs).takeWhile (fun c => c != 'X')).count 'X' = 0 := by
    rw [List.count_eq_zero]
    intro hmemX
    have hp := List.mem_takeWhile_imp hmemX
    simp at hp
  refine ⟨sortedDedup cs, hL, hmain, ?_, ?_⟩
  · rw [hfst, List.count_append, htwX]
    rfl
  · intro c hc
    rw [hfst, List.count_append]
    have h1 : ((sortedDedup cs).takeWhile (fun c => c != 'X')).count c ≤ 1 := by
      have hsub : ((sortedDedup cs).takeWhile
          (fun c => c != 'X')).Sublist (sortedDedup cs) :=
        List.takeWhile_sublist _
      exact le_trans (hsub.count_le c)
        (List.nodup_iff_count_le_one.mp (sortedDedup_nodup cs) c)
    have h2 : (['X', 'X', 'X'] : List Char).count c = 0 := by
      rw [List.count_eq_zero]
      simp [hc]
    omega

/-- Witness for C1: requesting AB and XY with the concrete always-fails-on-X
fetch function gives the ScrapeError for X after the trace A attempt 0 then
X attempts 0, 1, 2. -/
theorem get_vals_fatal_letter_retries_witness :
    get_vals_from_eoddata (some ["AB", "XY"]) 3 fetchFatalX =
      (Except.error (EodErr.scrapeError 'X' 3),
       [('A', 0), ('X', 0), ('X', 1), ('X', 2)]) := by
  obtain ⟨L, hL, hmain, -, -⟩ :=
    get_vals_fatal_letter_retries fetchFatalX ["AB", "XY"] "XY"
      (by decide) rfl (by decide)
      (fun i => rfl)
      (fun c i hc => ⟨[⟨String.mk [c], []⟩], by simp [fetchFatalX, hc]⟩)
  have hL2 : get_letters_list (some ["AB", "XY"]) =
      Except.ok (['A', 'X'] : List Char) := rfl
  rw [hL2] at hL
  obtain rfl : (['A', 'X'] : List Char) = L := Except.ok.inj hL
  rw [hmain]
  rfl

theorem get_vals_success_none (fetch : Char → Nat → Except Unit Table)
    (T : Char → Table) (n : Int)
    (hf : ∀ c i, fetch c i = Except.ok (T c)) (hn : 1 ≤ n) :
    get_vals_from_eoddata none n fetch =
      (Except.ok ((alphabet.map T).flatten.enum, []),
       alphabet.map (fun c => (c, 0))) := by
  have hcore : get_vals_from_eoddata none n fetch =
      get_vals_core none n fetch alphabet := rfl
  rw [hcore, get_vals_core, scrapeLetters_allOk fetch T hf n hn alphabet]
  rfl

/-- Claim C6: when every partition letter fetches successfully, the result
table is the per-letter tables concatenated in partition order and
relabelled contiguously from 0; with a ticker set specified it is first
filtered to exactly the rows whose Code is requested, in the combined
order, and with the ticker set unspecified (None, the fetch-everything
default over the 26-letter partition) no rows are filtered and there are
no warnings. -/
theorem get_vals_combined_filtered
    (ts : List String) (fetch : Char → Nat → Except Unit Table)
    (T : Char → Table) (n : Int)
    (hf : ∀ c i, fetch c i = Except.ok (T c)) (hn : 1 ≤ n)
    (hts : ts ≠ []) (hall : ∀ t ∈ ts, t.data ≠ []) :
    (∃ (L : List Char) (rows : Table),
      get_letters_list (some ts) = Except.ok L ∧
      rows = (L.map T).flatten.filter (fun r => ts.contains r.code) ∧
      (get_vals_from_eoddata (some ts) n fetch).1 =
        Except.ok (rows.enum,
          ts.filter (fun t => !(rows.map Row.code).contains t)) ∧
      rows.enum.map Prod.fst = List.range rows.length ∧
      rows.enum.map Prod.snd = rows) ∧
    get_letters_list none = Except.ok alphabet ∧
    (get_vals_from_eoddata none n fetch).1 =
      Except.ok ((alphabet.map T).flatten.enum, []) ∧
    (alphabet.map T).flatten.enum.map Prod.fst =
      List.range (alphabet.map T).flatten.length ∧
    (alphabet.map T).flatten.enum.map Prod.snd = (alphabet.map T).flatten := by
  constructor
  · obtain ⟨L, hL, -, -, -, hmain⟩ :=
      get_vals_success ts fetch T n hf hn hts hall
    refine ⟨L, _, hL, rfl, ?_, List.enum_map_fst _, List.enum_map_snd _⟩
    rw [hmain]
  · refine ⟨rfl, ?_, List.enum_map_fst _, List.enum_map_snd _⟩
    rw [get_vals_success_none fetch T n hf hn]

/-- The per-letter table family of the C6 witness scenario. -/
def tablesC6 : Char → Table := fun c =>
  if c = 'A' then [⟨"AAPL", ["1"]⟩, ⟨"AMZN", ["2"]⟩] else [⟨"GOOGL", ["3"]⟩]

/-- Witness for C6: requesting AAPL and GOOGL against per-letter pages where
the A page holds AAPL and AMZN and the G page holds GOOGL yields the rows
AAPL then GOOGL (partition order, AMZN filtered out) with fresh labels 0
and 1 and no warnings; the same pages with no ticker set give the whole
26-page concatenation relabelled from 0 with no filtering and no
warnings. -/
theorem get_vals_combined_filtered_witness :
    (get_vals_from_eoddata (some ["AAPL", "GOOGL"]) 5
        (fun c _ => Except.ok (tablesC6 c))).1 =
      Except.ok ([(0, ⟨"AAPL", ["1"]⟩), (1, ⟨"GOOGL", ["3"]⟩)], []) ∧
    (get_vals_from_eoddata none 5 (fun c _ => Except.ok (tablesC6 c))).1 =
      Except.ok ((alphabet.map tablesC6).flatten.enum, []) := by
  obtain ⟨⟨L, rows, hL, hrows, hmain, -, -⟩, -, hnone, -, -⟩ :=
    get_vals_combined_filtered ["AAPL", "GOOGL"]
      (fun c _ => Except.ok (tablesC6 c)) tablesC6 5
      (fun c i => rfl) (by decide) (by decide) (by decide)
  refine ⟨?_, hnone⟩
  have hL2 : get_letters_list (some ["AAPL", "GOOGL"]) =
      Except.ok (['A', 'G'] : List Char) := rfl
  rw [hL2] at hL
  obtain rfl : (['A', 'G'] : List Char) = L := Except.ok.inj hL
  have hrows2 : rows = [⟨"AAPL", ["1"]⟩, ⟨"GOOGL", ["3"]⟩] := by
    rw [hrows]
    decide
  rw [hrows2] at hmain
  rw [hmain]
  rfl

/-- Claim C7: the reconciliation step is non-fatal and purely informational:
the call still returns the filtered table, whose rows are untouched, and the
warning list is exactly the requested tickers whose code is absent from the
returned rows. -/
theorem get_vals_reconciliation_warnings
    (ts : List String) (fetch : Char → Nat → Except Unit Table)
    (T : Char → Table) (n : Int)
    (hf : ∀ c i, fetch c i = Except.ok (T c)) (hn : 1 ≤ n)
    (hts : ts ≠ []) (hall : ∀ t ∈ ts, t.data ≠ []) :
    ∃ (L : List Char) (rows : Table) (warn : List String),
      get_letters_list (some ts) = Except.ok L ∧
      rows = (L.map T).flatten.filter (fun r => ts.contains r.code) ∧
      warn = ts.filter (fun t => !(rows.map Row.code).contains t) ∧
      (get_vals_from_eoddata (some ts) n fetch).1 =
        Except.ok (rows.enum, warn) ∧
      (∀ t, t ∈ warn ↔ t ∈ ts ∧ t ∉ rows.map Row.code) := by
  obtain ⟨L, hL, -, -, -, hmain⟩ := get_vals_success ts fetch T n hf hn hts hall
  refine ⟨L, _, _, hL, rfl, rfl, by rw [hmain], ?_⟩
  intro t
  simp [List.mem_filter]

/-- The per-letter table family of the C7 witness scenario. -/
def tablesC7 : Char → Table := fun c =>
  if c = 'A' then [⟨"AAPL", ["p"]⟩] else [⟨"NFLX", ["q"]⟩]

/-- Witness for C7: requesting AAPL and NOTASTOCK against pages containing
only AAPL among the requested codes returns exactly the one AAPL row and a
warning naming NOTASTOCK. -/
theorem get_vals_reconciliation_warnings_witness :
    (get_vals_from_eoddata (some ["AAPL", "NOTASTOCK"]) 5
        (fun c _ => Except.ok (tablesC7 c))).1 =
      Except.ok ([(0, ⟨"AAPL", ["p"]⟩)], ["NOTASTOCK"]) := by
  obtain ⟨L, rows, warn, hL, hrows, hwarn, hmain, -⟩ :=
    get_vals_reconciliation_warnings ["AAPL", "NOTASTOCK"]
      (fun c _ => Except.ok (tablesC7 c)) tablesC7 5
      (fun c i => rfl) (by decide) (by decide) (by decide)
  have hL2 : get_letters_list (some ["AAPL", "NOTASTOCK"]) =
      Except.ok (['A', 'N'] : List Char) := rfl
  rw [hL2] at hL
  obtain rfl : (['A', 'N'] : List Char) = L := Except.ok.inj hL
  have hrows2 : rows = [⟨"AAPL", ["p"]⟩] := by
    rw [hrows]
    decide
  rw [hrows2] at hwarn hmain
  have hwarn2 : warn = ["NOTASTOCK"] := by
    rw [hwarn]
    decide
  rw [hwarn2] at hmain
  rw [hmain]
  rfl
